import Mathlib

/-!
# Verification of the CMML Market Scan pipeline

A shallow embedding, in Lean 4, of the pure decision logic of the
`cmml-market-scan` repository (`src/pdf_utils.py`, `src/market_scan_workflow.py`,
`src/prompt_manager.py`), together with theorems settling the specification
claims about it.

Modelling conventions:
* Python strings are Lean `String`s; where character-level reasoning is needed
  we work on `String.data : List Char`.
* A Python value that may be `None` is an `Option`.
* A Python call that may raise is a parameter of type `Except String α`
  (the `String` is the exception text `str(e)`); the embedded function then
  reproduces the source's `try/except` branching on that parameter.
* Machine-integer issues do not arise: all page numbers are non-negative and
  small.  The source compares signed ints in `get_bookmark_ranges`
  (`end_page >= start_page` where `end_page` may be `-1`); the embedding uses
  the equivalent `Nat` guards `start + 1 ≤ next` / `start + 1 ≤ total`.
-/

namespace MarketScan

/-! ## `pdf_utils.py` — bookmarks, main-section filter, page ranges -/

/-- A PDF bookmark as produced by `parse_outline_recursive`:
`{'title': ..., 'page': ...}`. -/
structure Bookmark where
  title : String
  page : Nat
deriving DecidableEq, Repr

/-- A section range as produced by `get_bookmark_ranges`:
`{'title', 'start_page', 'end_page', 'page_count'}`. -/
structure SectionRange where
  title : String
  start_page : Nat
  end_page : Nat
  page_count : Nat
deriving DecidableEq, Repr

/-- Python `str.isspace` class used by `str.strip()` and the regex `\s`
(ASCII part: space, tab, newline, carriage return, vertical tab, form feed). -/
def pyIsSpace (c : Char) : Bool :=
  c == ' ' || c == '\t' || c == '\n' || c == '\x0d' || c == '\x0b' || c == '\x0c'

/-- Python `str.strip()` on the character list: drop `pyIsSpace` characters
from both ends. -/
def pyStrip (s : List Char) : List Char :=
  (((s.dropWhile pyIsSpace).reverse).dropWhile pyIsSpace).reverse

/-- A character admitted by the regex class `[A-Z\s]`. -/
def sectionBodyChar (c : Char) : Bool :=
  (decide ('A' ≤ c) && decide (c ≤ 'Z')) || pyIsSpace c

/-- `re.match(r'^\d+\.\s+[A-Z\s]+$', title)` of `filter_main_sections`
(ASCII reading of `\d` and `\s`).  Since every `\s` character is also in the
class `[A-Z\s]`, the tail `\s+[A-Z\s]+$` accepts exactly the strings of
length ≥ 2 whose first character is whitespace and whose characters all lie
in `[A-Z\s]`. -/
def matchesMainSection (cs : List Char) : Bool :=
  decide (cs.takeWhile Char.isDigit ≠ []) &&
    match cs.dropWhile Char.isDigit with
    | '.' :: c :: rest => pyIsSpace c && decide (rest ≠ []) && rest.all sectionBodyChar
    | _ => false

/-- Insert a bookmark into a page-sorted list, before the first entry with a
page ≥ its own (the insertion step of a stable sort by `page`). -/
def insertByPage (b : Bookmark) : List Bookmark → List Bookmark
  | [] => [b]
  | c :: cs => if b.page ≤ c.page then b :: c :: cs else c :: insertByPage b cs

/-- Stable insertion sort by `page`: the embedding of the source's
`sort(key=lambda x: x['page'])` / `sorted(..., key=lambda x: x['page'])`
(Python's sort is stable; so is this one). -/
def sortByPage : List Bookmark → List Bookmark
  | [] => []
  | b :: bs => insertByPage b (sortByPage bs)

/-- `PdfUtils.filter_main_sections`: keep the bookmarks whose stripped title
matches the numbered-section regex, then sort by page.  (The source's
`except` fallback is unreachable here: the body is pure.) -/
def filter_main_sections (bookmarks : List Bookmark) : List Bookmark :=
  sortByPage (bookmarks.filter fun b => matchesMainSection (pyStrip b.title.data))

/-- The range-building loop of `get_bookmark_ranges` over the page-sorted
main sections.  For every section the end page is the next section's page − 1
(the document's last page for the final section); a range with
`end_page < start_page` is discarded.  The source guards with signed ints
(`end_page >= start_page`); over `Nat` this is `b.page + 1 ≤ next` resp.
`b.page + 1 ≤ total`, and then `end_page − start_page + 1` is the stored
`page_count`. -/
def buildRanges (total : Nat) : List Bookmark → List SectionRange
  | [] => []
  | [b] =>
    if b.page + 1 ≤ total then
      [⟨b.title, b.page, total - 1, (total - 1) - b.page + 1⟩]
    else []
  | b :: c :: rest =>
    (if b.page + 1 ≤ c.page then
      [⟨b.title, b.page, c.page - 1, (c.page - 1) - b.page + 1⟩]
    else []) ++ buildRanges total (c :: rest)

/-- `PdfUtils.get_bookmark_ranges`: filter to main sections, bail out with
`[]` when none remain, sort (again) by page and build the ranges. -/
def get_bookmark_ranges (bookmarks : List Bookmark) (total_pages : Nat) :
    List SectionRange :=
  if (filter_main_sections bookmarks).isEmpty then []
  else buildRanges total_pages (sortByPage (filter_main_sections bookmarks))

/-- The coverage property claimed for ranges of one document: every page of
`[0, total_pages − 1]` lies in exactly one range. -/
def coversExactlyOnce (rs : List SectionRange) (total_pages : Nat) : Prop :=
  ∀ p, p < total_pages →
    rs.countP (fun r => decide (r.start_page ≤ p ∧ p ≤ r.end_page)) = 1

end MarketScan

namespace MarketScan

/-! ### Lemmas about the sort -/

theorem mem_insertByPage {x b : Bookmark} {l : List Bookmark} :
    x ∈ insertByPage b l ↔ x = b ∨ x ∈ l := by
  induction l with
  | nil => simp [insertByPage]
  | cons c cs ih =>
    by_cases h : b.page ≤ c.page
    · simp [insertByPage, h]
    · simp [insertByPage, h, ih]
      tauto

theorem mem_sortByPage {x : Bookmark} {l : List Bookmark} :
    x ∈ sortByPage l ↔ x ∈ l := by
  induction l with
  | nil => simp [sortByPage]
  | cons b bs ih => simp [sortByPage, mem_insertByPage, ih]

theorem pairwise_insertByPage {b : Bookmark} {l : List Bookmark}
    (h : l.Pairwise fun x y => x.page ≤ y.page) :
    (insertByPage b l).Pairwise fun x y => x.page ≤ y.page := by
  induction l with
  | nil => simp [insertByPage]
  | cons c cs ih =>
    rcases List.pairwise_cons.mp h with ⟨hc, hcs⟩
    by_cases hbc : b.page ≤ c.page
    · rw [insertByPage, if_pos hbc]
      refine List.pairwise_cons.mpr ⟨?_, h⟩
      intro y hy
      rcases List.mem_cons.mp hy with rfl | hy
      · exact hbc
      · exact le_trans hbc (hc y hy)
    · rw [insertByPage, if_neg hbc]
      refine List.pairwise_cons.mpr ⟨?_, ih hcs⟩
      intro y hy
      rcases mem_insertByPage.mp hy with rfl | hy
      · omega
      · exact hc y hy

theorem pairwise_sortByPage (l : List Bookmark) :
    (sortByPage l).Pairwise fun x y => x.page ≤ y.page := by
  induction l with
  | nil => simp [sortByPage]
  | cons b bs ih => exact pairwise_insertByPage ih

end MarketScan

namespace MarketScan

/-! ### Lemmas about `buildRanges` -/

theorem buildRanges_start_mem {total : Nat} :
    ∀ {l : List Bookmark} {r : SectionRange}, r ∈ buildRanges total l →
      ∃ b ∈ l, r.start_page = b.page
  | [], r, h => by simp [buildRanges] at h
  | [b], r, h => by
    by_cases hg : b.page + 1 ≤ total
    · simp [buildRanges, hg] at h
      subst h
      exact ⟨b, by simp, rfl⟩
    · simp [buildRanges, hg] at h
  | b :: c :: rest, r, h => by
    rw [buildRanges] at h
    rcases List.mem_append.mp h with h0 | h1
    · by_cases hg : b.page + 1 ≤ c.page
      · simp [hg] at h0
        subst h0
        exact ⟨b, by simp, rfl⟩
      · simp [hg] at h0
    · rcases buildRanges_start_mem h1 with ⟨x, hx, hr⟩
      exact ⟨x, List.mem_cons_of_mem _ hx, hr⟩

theorem buildRanges_start_ge {total : Nat} {c : Bookmark} {rest : List Bookmark}
    (hs : (c :: rest).Pairwise fun x y => x.page ≤ y.page)
    {r : SectionRange} (hr : r ∈ buildRanges total (c :: rest)) :
    c.page ≤ r.start_page := by
  rcases buildRanges_start_mem hr with ⟨x, hx, hstart⟩
  rcases List.mem_cons.mp hx with rfl | hx
  · omega
  · have := (List.pairwise_cons.mp hs).1 x hx
    omega

theorem buildRanges_sorted {total : Nat} :
    ∀ {l : List Bookmark}, (l.Pairwise fun x y => x.page ≤ y.page) →
      (buildRanges total l).Pairwise fun r s => r.start_page < s.start_page
  | [], _ => by simp [buildRanges]
  | [b], _ => by
    by_cases hg : b.page + 1 ≤ total <;> simp [buildRanges, hg]
  | b :: c :: rest, hs => by
    have hs' : (c :: rest).Pairwise fun x y => x.page ≤ y.page :=
      (List.pairwise_cons.mp hs).2
    have ih := @buildRanges_sorted total _ hs'
    rw [buildRanges]
    by_cases hg : b.page + 1 ≤ c.page
    · simp only [hg, if_pos, List.singleton_append]
      refine List.pairwise_cons.mpr ⟨?_, ih⟩
      intro s hsr
      have := buildRanges_start_ge hs' hsr
      simp only
      omega
    · simp [hg, ih]

theorem buildRanges_head_start {total : Nat} :
    ∀ {c : Bookmark} {rest : List Bookmark},
      ((c :: rest).Pairwise fun x y => x.page ≤ y.page) →
      ∀ {r : SectionRange}, (buildRanges total (c :: rest)).head? = some r →
        r.start_page = c.page
  | c, [], _, r, h => by
    by_cases hg : c.page + 1 ≤ total
    · simp [buildRanges, hg] at h
      subst h
      rfl
    · simp [buildRanges, hg] at h
  | c, c' :: rest, hs, r, h => by
    rw [buildRanges] at h
    by_cases hg : c.page + 1 ≤ c'.page
    · simp only [hg, if_pos, List.singleton_append, List.head?_cons,
        Option.some.injEq] at h
      subst h
      rfl
    · simp only [hg, if_neg, not_false_iff, List.nil_append] at h
      have hs' : (c' :: rest).Pairwise fun x y => x.page ≤ y.page :=
        (List.pairwise_cons.mp hs).2
      have hcc' : c.page ≤ c'.page := (List.pairwise_cons.mp hs).1 c' (by simp)
      have := buildRanges_head_start hs' h
      omega

theorem buildRanges_chain {total : Nat} :
    ∀ {l : List Bookmark}, (l.Pairwise fun x y => x.page ≤ y.page) →
      (buildRanges total l).Chain' fun r s => r.end_page + 1 = s.start_page
  | [], _ => by simp [buildRanges]
  | [b], _ => by
    by_cases hg : b.page + 1 ≤ total <;> simp [buildRanges, hg]
  | b :: c :: rest, hs => by
    have hs' : (c :: rest).Pairwise fun x y => x.page ≤ y.page :=
      (List.pairwise_cons.mp hs).2
    have ih := @buildRanges_chain total _ hs'
    rw [buildRanges]
    by_cases hg : b.page + 1 ≤ c.page
    · simp only [hg, if_pos, List.singleton_append]
      refine List.chain'_cons'.mpr ⟨?_, ih⟩
      intro s hhead
      have := buildRanges_head_start hs' hhead
      simp only
      omega
    · simp only [hg, if_neg, not_false_iff, List.nil_append]
      exact ih

theorem buildRanges_countP {total : Nat} :
    ∀ {b : Bookmark} {rest : List Bookmark},
      ((b :: rest).Pairwise fun x y => x.page ≤ y.page) →
      ∀ {p : Nat}, b.page ≤ p → p < total →
        (buildRanges total (b :: rest)).countP
          (fun r => decide (r.start_page ≤ p ∧ p ≤ r.end_page)) = 1
  | b, [], _, p, hbp, hp => by
    have hg : b.page + 1 ≤ total := by omega
    have hhit : (decide (b.page ≤ p ∧ p ≤ total - 1)) = true := by
      rw [decide_eq_true_eq]
      omega
    rw [buildRanges, if_pos hg]
    simp only [List.countP_cons, List.countP_nil]
    rw [hhit]
    simp
  | b, c :: rest, hs, p, hbp, hp => by
    have hs' : (c :: rest).Pairwise fun x y => x.page ≤ y.page :=
      (List.pairwise_cons.mp hs).2
    rw [buildRanges]
    by_cases hg : b.page + 1 ≤ c.page
    · rw [if_pos hg, List.singleton_append]
      simp only [List.countP_cons]
      by_cases hlo : p < c.page
      · have hhit : (decide (b.page ≤ p ∧ p ≤ c.page - 1)) = true := by
          rw [decide_eq_true_eq]
          omega
        have hz : (buildRanges total (c :: rest)).countP
            (fun r => decide (r.start_page ≤ p ∧ p ≤ r.end_page)) = 0 := by
          refine List.countP_eq_zero.mpr ?_
          intro r hr
          have := buildRanges_start_ge hs' hr
          rw [decide_eq_true_eq]
          omega
        rw [hz, hhit]
        simp
      · have hmiss : (decide (b.page ≤ p ∧ p ≤ c.page - 1)) = false := by
          rw [decide_eq_false_iff_not]
          omega
        have h1 := buildRanges_countP hs' (p := p) (by omega) hp
        rw [h1, hmiss]
        simp
    · have hcb : c.page = b.page := by
        have := (List.pairwise_cons.mp hs).1 c (by simp)
        omega
      rw [if_neg hg, List.nil_append]
      exact buildRanges_countP hs' (p := p) (by omega) hp

end MarketScan

namespace MarketScan

/-! ### Range invariants of `get_bookmark_ranges` -/

instance instDecidableCoversExactlyOnce (rs : List SectionRange) (total : Nat) :
    Decidable (coversExactlyOnce rs total) := by
  unfold coversExactlyOnce
  infer_instance

theorem ranges_sorted_aux (bookmarks : List Bookmark) (total : Nat) :
    (get_bookmark_ranges bookmarks total).Pairwise
      fun r s => r.start_page < s.start_page := by
  simp only [get_bookmark_ranges]
  split
  · simp
  · exact buildRanges_sorted (pairwise_sortByPage _)

theorem ranges_chain_aux (bookmarks : List Bookmark) (total : Nat) :
    (get_bookmark_ranges bookmarks total).Chain'
      fun r s => r.end_page + 1 = s.start_page := by
  simp only [get_bookmark_ranges]
  split
  · simp
  · exact buildRanges_chain (pairwise_sortByPage _)

theorem ranges_cover_aux (bookmarks : List Bookmark) (total : Nat)
    (h0 : ∃ b ∈ filter_main_sections bookmarks, b.page = 0) :
    coversExactlyOnce (get_bookmark_ranges bookmarks total) total := by
  rcases h0 with ⟨b0, hb0mem, hb0page⟩
  have hne : ¬ (filter_main_sections bookmarks).isEmpty := by
    intro he
    rw [List.isEmpty_iff] at he
    rw [he] at hb0mem
    simp at hb0mem
  intro p hp
  rw [get_bookmark_ranges, if_neg hne]
  rcases hsort : sortByPage (filter_main_sections bookmarks) with _ | ⟨hd, tl⟩
  · exfalso
    have : b0 ∈ sortByPage (filter_main_sections bookmarks) :=
      mem_sortByPage.mpr hb0mem
    rw [hsort] at this
    simp at this
  · have hpw : (hd :: tl).Pairwise fun x y => x.page ≤ y.page := by
      rw [← hsort]
      exact pairwise_sortByPage _
    have hmem0 : b0 ∈ hd :: tl := by
      rw [← hsort]
      exact mem_sortByPage.mpr hb0mem
    have hhd0 : hd.page = 0 := by
      rcases List.mem_cons.mp hmem0 with rfl | htl
      · omega
      · have := (List.pairwise_cons.mp hpw).1 b0 htl
        omega
    exact buildRanges_countP hpw (by omega) hp

/-- C2 (amended): for every bookmark list and positive `totalPages`, the
ranges returned by `get_bookmark_ranges` are sorted strictly ascending by
`start_page` and contiguous (`end_page + 1` of each range equals the next
range's `start_page`); and whenever a filtered main section sits on page 0,
the ranges cover every page of `[0, totalPages − 1]` exactly once (pages of
`[0, totalPages − 1]` covered by no range arise exactly from the earliest
main section starting past page 0). -/
theorem bookmark_ranges_invariants (bookmarks : List Bookmark) (total_pages : Nat)
    (_hpos : 0 < total_pages) :
    (get_bookmark_ranges bookmarks total_pages).Pairwise
        (fun r s => r.start_page < s.start_page)
  ∧ (get_bookmark_ranges bookmarks total_pages).Chain'
        (fun r s => r.end_page + 1 = s.start_page)
  ∧ ((∃ b ∈ filter_main_sections bookmarks, b.page = 0) →
      coversExactlyOnce (get_bookmark_ranges bookmarks total_pages) total_pages) :=
  ⟨ranges_sorted_aux bookmarks total_pages,
   ranges_chain_aux bookmarks total_pages,
   fun h0 => ranges_cover_aux bookmarks total_pages h0⟩

/-- Witness for C2's amended theorem: a concrete two-section document on
which the hypotheses hold and full coverage follows. -/
theorem bookmark_ranges_invariants_witness :
    (get_bookmark_ranges [⟨"1. PROFILE", 0⟩, ⟨"2. DIRECTORS", 5⟩] 10).Chain'
        (fun r s => r.end_page + 1 = s.start_page)
  ∧ coversExactlyOnce (get_bookmark_ranges [⟨"1. PROFILE", 0⟩, ⟨"2. DIRECTORS", 5⟩] 10) 10 :=
  ⟨(bookmark_ranges_invariants [⟨"1. PROFILE", 0⟩, ⟨"2. DIRECTORS", 5⟩] 10
      (by decide)).2.1,
   (bookmark_ranges_invariants [⟨"1. PROFILE", 0⟩, ⟨"2. DIRECTORS", 5⟩] 10
      (by decide)).2.2 (by decide)⟩

/-- Counterexample to C2 as stated: a single main section starting on page 3
of a 5-page document yields the single range (3, 4) — sorted and contiguous,
but page 0 is covered by no range, so the ranges do not cover
`[0, totalPages − 1]`. -/
theorem bookmark_ranges_coverage_cex :
    get_bookmark_ranges [⟨"1. PROFILE", 3⟩] 5 = [⟨"1. PROFILE", 3, 4, 2⟩]
  ∧ ¬ coversExactlyOnce (get_bookmark_ranges [⟨"1. PROFILE", 3⟩] 5) 5 := by
  constructor
  · decide
  · intro h
    exact absurd (h 0 (by omega)) (by decide)

/-- C4: the four canonical-form bookmarks at pages [0, 5, 12, 30] of a
40-page document produce exactly the ranges (0,4), (5,11), (12,29), (30,39),
whose `page_count` fields sum to 40. -/
theorem compute_ranges_example :
    get_bookmark_ranges [⟨"1. PROFILE", 0⟩, ⟨"2. DIRECTORS", 5⟩, ⟨"4. RATING", 12⟩,
        ⟨"5. FINANCIALS", 30⟩] 40 =
      [⟨"1. PROFILE", 0, 4, 5⟩, ⟨"2. DIRECTORS", 5, 11, 7⟩, ⟨"4. RATING", 12, 29, 18⟩,
        ⟨"5. FINANCIALS", 30, 39, 10⟩]
  ∧ ((get_bookmark_ranges [⟨"1. PROFILE", 0⟩, ⟨"2. DIRECTORS", 5⟩, ⟨"4. RATING", 12⟩,
        ⟨"5. FINANCIALS", 30⟩] 40).map SectionRange.page_count).sum = 40 := by
  decide

end MarketScan

namespace MarketScan

/-! ## `pdf_utils.py` — `extract_pdf_section` -/

/-- Python `str.upper()`, ASCII reading, on the character list. -/
def pyUpper (cs : List Char) : List Char :=
  cs.map Char.toUpper

/-- Boolean prefix test on character lists (first argument is the pattern). -/
def startsWithCL : List Char → List Char → Bool
  | [], _ => true
  | _ :: _, [] => false
  | a :: as, b :: bs => a == b && startsWithCL as bs

/-- Python's substring operator `needle in hay` on character lists. -/
def containsSub (needle : List Char) : List Char → Bool
  | [] => needle.isEmpty
  | c :: rest => startsWithCL needle (c :: rest) || containsSub needle rest

/-- The match test of `extract_pdf_section`'s loop:
`section_keyword.upper() in section['title'].upper()`. -/
def titleMatches (section_keyword : String) (r : SectionRange) : Bool :=
  containsSub (pyUpper section_keyword.data) (pyUpper r.title.data)

/-- `list(range(section['start_page'], section['end_page'] + 1))`. -/
def pagesToExtract (r : SectionRange) : List Nat :=
  List.range' r.start_page (r.end_page + 1 - r.start_page)

/-- `PdfUtils.extract_pdf_section`.  Effectful sub-calls are parameters:
`pdfAvailable` is the module flag `PDF_PROCESSING_AVAILABLE`; `bookmarks` is
the result of `extract_pdf_bookmarks` (which returns `[]` on any of its own
failures); `total_pages` the result of `get_pdf_page_count` (`none` models
its `except` branch, and the source's falsy test `if not total_pages` also
treats a zero page count as a failure); `extractPages` the result of
`extract_pages` on a page list (`none` models its `except` branch).  The
body's own `try/except` returns `pdf_path`, and every sub-call already
catches its own exceptions, so the embedding is total.  The loop takes the
first range whose upper-cased title contains the upper-cased keyword; when
extraction of that range fails it `break`s and falls through to returning
`pdf_path`. -/
def extract_pdf_section (pdfAvailable : Bool) (bookmarks : List Bookmark)
    (total_pages : Option Nat) (extractPages : List Nat → Option String)
    (pdf_path : String) (section_keyword : String) : String :=
  if !pdfAvailable then pdf_path
  else if bookmarks.isEmpty then pdf_path
  else
    match total_pages with
    | none => pdf_path
    | some total =>
      if total == 0 then pdf_path
      else
        if (get_bookmark_ranges bookmarks total).isEmpty then pdf_path
        else
          match (get_bookmark_ranges bookmarks total).find?
              (titleMatches section_keyword) with
          | none => pdf_path
          | some sec =>
            match extractPages (pagesToExtract sec) with
            | some temp_pdf => temp_pdf
            | none => pdf_path

/-- `List.find?` on a list strictly sorted by `start_page` returns the match
with the least `start_page`. -/
theorem find?_min_start {p : SectionRange → Bool} :
    ∀ {l : List SectionRange},
      (l.Pairwise fun r s => r.start_page < s.start_page) →
      ∀ {sec : SectionRange}, l.find? p = some sec →
        ∀ r ∈ l, p r = true → sec.start_page ≤ r.start_page
  | [], _, sec, h => by simp at h
  | a :: l, hs, sec, h => by
    rcases List.pairwise_cons.mp hs with ⟨ha, hl⟩
    by_cases hpa : p a
    · rw [List.find?_cons_of_pos _ hpa] at h
      injection h with h
      subst h
      intro r hr _
      rcases List.mem_cons.mp hr with rfl | hr
      · exact le_refl _
      · exact le_of_lt (ha r hr)
    · rw [List.find?_cons_of_neg _ hpa] at h
      intro r hr hpr
      rcases List.mem_cons.mp hr with rfl | hr
      · exact absurd hpr hpa
      · exact find?_min_start hl h r hr hpr

end MarketScan

namespace MarketScan

theorem extract_unavailable (bookmarks : List Bookmark) (tp : Option Nat)
    (extractPages : List Nat → Option String) (path kw : String) :
    extract_pdf_section false bookmarks tp extractPages path kw = path := rfl

theorem extract_no_bookmarks (av : Bool) (tp : Option Nat)
    (extractPages : List Nat → Option String) (path kw : String) :
    extract_pdf_section av [] tp extractPages path kw = path := by
  cases av <;> rfl

theorem extract_no_pagecount (av : Bool) (bookmarks : List Bookmark)
    (extractPages : List Nat → Option String) (path kw : String) :
    extract_pdf_section av bookmarks none extractPages path kw = path := by
  cases av
  · rfl
  · cases bookmarks <;> rfl

theorem extract_zero_pages (av : Bool) (bookmarks : List Bookmark)
    (extractPages : List Nat → Option String) (path kw : String) :
    extract_pdf_section av bookmarks (some 0) extractPages path kw = path := by
  cases av
  · rfl
  · cases bookmarks <;> rfl

theorem extract_step (b : Bookmark) (bs : List Bookmark) (t : Nat)
    (extractPages : List Nat → Option String) (path kw : String) :
    extract_pdf_section true (b :: bs) (some (t + 1)) extractPages path kw =
      match (get_bookmark_ranges (b :: bs) (t + 1)).find? (titleMatches kw) with
      | none => path
      | some sec =>
        match extractPages (pagesToExtract sec) with
        | some temp_pdf => temp_pdf
        | none => path := by
  show (if (get_bookmark_ranges (b :: bs) (t + 1)).isEmpty then path
        else
          match (get_bookmark_ranges (b :: bs) (t + 1)).find? (titleMatches kw) with
          | none => path
          | some sec =>
            match extractPages (pagesToExtract sec) with
            | some temp_pdf => temp_pdf
            | none => path) = _
  by_cases he : (get_bookmark_ranges (b :: bs) (t + 1)).isEmpty
  · rw [if_pos he]
    rw [List.isEmpty_iff] at he
    rw [he]
    rfl
  · rw [if_neg he]

end MarketScan

namespace MarketScan

/-- C3: `extract_pdf_section` never raises (the embedding is total, and every
outcome is either the original `pdf_path` or a successfully extracted
artifact); on every internal failure — PDF support missing, no bookmarks, no
page count (or a zero page count), no ranges / no matching title, or failing
extraction of the matched range — it returns the original `pdf_path`
unchanged; and a section found by the loop is the matching range with the
least `start_page` (the ranges are sorted ascending by `start_page`). -/
theorem extract_pdf_section_spec (pdfAvailable : Bool) (bookmarks : List Bookmark)
    (total_pages : Option Nat) (extractPages : List Nat → Option String)
    (pdf_path section_keyword : String) :
    (extract_pdf_section pdfAvailable bookmarks total_pages extractPages
        pdf_path section_keyword = pdf_path
      ∨ ∃ total sec, total_pages = some total
          ∧ (get_bookmark_ranges bookmarks total).find? (titleMatches section_keyword) =
              some sec
          ∧ extractPages (pagesToExtract sec) =
              some (extract_pdf_section pdfAvailable bookmarks total_pages extractPages
                pdf_path section_keyword))
  ∧ (pdfAvailable = false →
      extract_pdf_section pdfAvailable bookmarks total_pages extractPages
        pdf_path section_keyword = pdf_path)
  ∧ (bookmarks = [] →
      extract_pdf_section pdfAvailable bookmarks total_pages extractPages
        pdf_path section_keyword = pdf_path)
  ∧ (total_pages = none ∨ total_pages = some 0 →
      extract_pdf_section pdfAvailable bookmarks total_pages extractPages
        pdf_path section_keyword = pdf_path)
  ∧ (∀ total, total_pages = some total →
      (get_bookmark_ranges bookmarks total).find? (titleMatches section_keyword) = none →
      extract_pdf_section pdfAvailable bookmarks total_pages extractPages
        pdf_path section_keyword = pdf_path)
  ∧ (∀ total sec, total_pages = some total →
      (get_bookmark_ranges bookmarks total).find? (titleMatches section_keyword) =
        some sec →
      (extractPages (pagesToExtract sec) = none →
        extract_pdf_section pdfAvailable bookmarks total_pages extractPages
          pdf_path section_keyword = pdf_path)
      ∧ titleMatches section_keyword sec = true
      ∧ ∀ r ∈ get_bookmark_ranges bookmarks total,
          titleMatches section_keyword r = true → sec.start_page ≤ r.start_page) := by
  have hfacts : ∀ total (sec : SectionRange),
      (get_bookmark_ranges bookmarks total).find? (titleMatches section_keyword) =
        some sec →
      titleMatches section_keyword sec = true
      ∧ ∀ r ∈ get_bookmark_ranges bookmarks total,
          titleMatches section_keyword r = true → sec.start_page ≤ r.start_page := by
    intro total sec h
    exact ⟨List.find?_some h,
      fun r hr hpr => find?_min_start (ranges_sorted_aux bookmarks total) h r hr hpr⟩
  refine ⟨?_, ?_, ?_, ?_, ?_, ?_⟩
  · -- totality: the result is `pdf_path` or a successful extraction
    cases pdfAvailable with
    | false => exact Or.inl rfl
    | true =>
      cases bookmarks with
      | nil => exact Or.inl (extract_no_bookmarks _ _ _ _ _)
      | cons b bs =>
        cases total_pages with
        | none => exact Or.inl (extract_no_pagecount _ _ _ _ _)
        | some total =>
          cases total with
          | zero => exact Or.inl (extract_zero_pages _ _ _ _ _)
          | succ t =>
            rcases hf : (get_bookmark_ranges (b :: bs) (t + 1)).find?
                (titleMatches section_keyword) with _ | sec
            · exact Or.inl (by rw [extract_step, hf])
            · rcases hex : extractPages (pagesToExtract sec) with _ | temp_pdf
              · refine Or.inl ?_
                rw [extract_step, hf]
                show (match extractPages (pagesToExtract sec) with
                  | some temp_pdf => temp_pdf
                  | none => pdf_path) = pdf_path
                rw [hex]
              · refine Or.inr ⟨t + 1, sec, rfl, hf, ?_⟩
                rw [extract_step, hf]
                show extractPages (pagesToExtract sec) =
                  some (match extractPages (pagesToExtract sec) with
                    | some temp_pdf => temp_pdf
                    | none => pdf_path)
                rw [hex]
  · intro h
    subst h
    exact extract_unavailable _ _ _ _ _
  · intro h
    subst h
    exact extract_no_bookmarks _ _ _ _ _
  · intro h
    rcases h with h | h <;> subst h
    · exact extract_no_pagecount _ _ _ _ _
    · exact extract_zero_pages _ _ _ _ _
  · intro total htot hfind
    subst htot
    cases pdfAvailable with
    | false => exact extract_unavailable _ _ _ _ _
    | true =>
      cases bookmarks with
      | nil => exact extract_no_bookmarks _ _ _ _ _
      | cons b bs =>
        cases total with
        | zero => exact extract_zero_pages _ _ _ _ _
        | succ t => rw [extract_step, hfind]
  · intro total sec htot hfind
    refine ⟨?_, (hfacts total sec hfind).1, (hfacts total sec hfind).2⟩
    intro hex
    subst htot
    cases pdfAvailable with
    | false => exact extract_unavailable _ _ _ _ _
    | true =>
      cases bookmarks with
      | nil => exact extract_no_bookmarks _ _ _ _ _
      | cons b bs =>
        cases total with
        | zero => exact extract_zero_pages _ _ _ _ _
        | succ t =>
          rw [extract_step, hfind]
          show (match extractPages (pagesToExtract sec) with
            | some temp_pdf => temp_pdf
            | none => pdf_path) = pdf_path
          rw [hex]

end MarketScan

namespace MarketScan

/-! ## `pdf_utils.py` — `parse_outline_recursive`

A PyPDF2 outline is a Python object graph: each element of a list is either a
leaf destination (title + page) or a nested list, and nothing guarantees the
graph is acyclic (`a = []; a.append(a)` is a legal outline value).  An
inductive tree cannot represent such cycles, so the graph is embedded as a
store of numbered nodes, and the source's recursion is given an explicit
`fuel` parameter bounding the recursion depth it may use: `fuel` is the only
thing that stops the embedded function, exactly because the source itself has
no depth ceiling and no visited-set. -/

/-- One node of the outline object graph. -/
inductive OutlineObj where
  /-- A leaf bookmark entry; `page = none` models a destination whose page
  number cannot be resolved (the source skips it via `except ... continue`). -/
  | entry (title : String) (page : Option Nat)
  /-- A nested list, given by the store ids of its elements. -/
  | nested (children : List Nat)

/-- The outline object graph: may be cyclic. -/
def OutlineStore : Type := Nat → OutlineObj

/-- `PdfUtils.parse_outline_recursive` over `ids`, the elements of one
outline list, with `fuel` bounding the depth of recursion into nested lists.
Walking the remaining siblings costs no fuel (it is a `for` loop in the
source); entering a nested list costs one unit (one recursive Python call).
`none` means the source would have recursed deeper than `fuel` — the source
itself recurses without any bound until the interpreter kills it. -/
def parse_outline_recursive (store : OutlineStore) (fuel : Nat) (ids : List Nat) :
    Option (List Bookmark) :=
  match ids with
  | [] => some []
  | id :: rest =>
    match store id with
    | .nested children =>
      match fuel with
      | 0 => none
      | f + 1 =>
        match parse_outline_recursive store f children with
        | none => none
        | some bs =>
          match parse_outline_recursive store (f + 1) rest with
          | none => none
          | some bs2 => some (bs ++ bs2)
    | .entry t p =>
      match parse_outline_recursive store fuel rest with
      | none => none
      | some bs =>
        some ((match p with | some page_num => [⟨t, page_num⟩] | none => []) ++ bs)
termination_by (fuel, ids.length)

/-- The self-referential outline `a = []; a.append(a)`: node 0 is a list
whose only element is node 0 itself. -/
def cyclicOutlineStore : OutlineStore := fun _ => .nested [0]

/-- C5 (the code violates the claim): on the self-referential outline, no
recursion-depth budget whatsoever lets `parse_outline_recursive` finish —
the function has no fixed depth ceiling and tracks no visited identities, so
on a cyclic outline its recursion is unbounded. -/
theorem parse_outline_cyclic_unbounded (fuel : Nat) :
    parse_outline_recursive cyclicOutlineStore fuel [0] = none := by
  induction fuel with
  | zero =>
    unfold parse_outline_recursive
    rfl
  | succ f ih =>
    unfold parse_outline_recursive
    show (match parse_outline_recursive cyclicOutlineStore f [0] with
      | none => none
      | some bs =>
        match parse_outline_recursive cyclicOutlineStore (f + 1) [] with
        | none => none
        | some bs2 => some (bs ++ bs2)) = none
    rw [ih]

end MarketScan

namespace MarketScan

/-! ## `market_scan_workflow.py` — `merge_dicts` (the status-map reducer)

A Python `dict` of strings is embedded as an insertion-ordered association
list with the update semantics of `dict.update`: an existing key keeps its
position and gets the new value, a new key is appended.  Python dict equality
ignores insertion order, so it is `dictEquiv` (pointwise lookup equality)
below. -/

/-- A Python `Dict[str, str]` as an insertion-ordered association list. -/
def Dict : Type := List (String × String)

/-- Lookup: the value at the first occurrence of the key. -/
def pyLookup (k : String) : Dict → Option String
  | [] => none
  | kv :: d => if kv.1 = k then some kv.2 else pyLookup k d

/-- `d[k] = v` on a Python dict: replace the value at an existing key in
place, else append the new pair. -/
def pySetKey (d : Dict) (k v : String) : Dict :=
  match d with
  | [] => [(k, v)]
  | kv :: rest => if kv.1 = k then (kv.1, v) :: rest else kv :: pySetKey rest k v

/-- `left.copy()` followed by `result.update(right)`. -/
def pyUpdate (left right : Dict) : Dict :=
  right.foldl (fun acc kv => pySetKey acc kv.1 kv.2) left

/-- The keys of a dict, in insertion order. -/
def dictKeys (d : Dict) : List String :=
  d.map Prod.fst

/-- Python dict equality (`==`): same mapping, insertion order ignored. -/
def dictEquiv (d₁ d₂ : Dict) : Prop :=
  ∀ k, pyLookup k d₁ = pyLookup k d₂

/-- `merge_dicts` of `market_scan_workflow.py`: `None` short-circuits on
either side, otherwise `left.copy()` updated with `right` (right wins). -/
def merge_dicts : Option Dict → Option Dict → Option Dict
  | none, right => right
  | some left, none => some left
  | some left, some right => some (pyUpdate left right)

theorem pyLookup_pySetKey (d : Dict) (k k' v : String) :
    pyLookup k (pySetKey d k' v) = if k' = k then some v else pyLookup k d := by
  induction d with
  | nil =>
    by_cases h : k' = k
    · simp [pySetKey, pyLookup, h]
    · simp [pySetKey, pyLookup, h]
  | cons kv rest ih =>
    by_cases h1 : kv.1 = k'
    · rw [pySetKey, if_pos h1]
      by_cases h2 : k' = k
      · simp [pyLookup, h1, h2]
      · have : ¬ kv.1 = k := by rw [h1]; exact h2
        simp [pyLookup, this, h2]
    · rw [pySetKey, if_neg h1]
      by_cases h2 : kv.1 = k
      · have : ¬ k' = k := fun he => h1 (by rw [he, h2])
        simp [pyLookup, h2, this]
      · simp [pyLookup, h2, ih]

theorem pyUpdate_cons (left : Dict) (kv : String × String) (rest : Dict) :
    pyUpdate left (kv :: rest) = pyUpdate (pySetKey left kv.1 kv.2) rest := rfl

theorem pyLookup_eq_none_iff (d : Dict) (k : String) :
    pyLookup k d = none ↔ k ∉ dictKeys d := by
  induction d with
  | nil => simp [pyLookup, dictKeys]
  | cons kv rest ih =>
    rw [pyLookup, dictKeys, List.map_cons, List.mem_cons]
    by_cases h : kv.1 = k
    · simp [h]
    · simp only [if_neg h, ih, dictKeys]
      constructor
      · intro hn
        exact fun hc => hc.elim (fun he => h he.symm) hn
      · intro hn
        exact fun hc => hn (Or.inr hc)

/-- With duplicate-free keys on the right (always true of a Python dict),
looking up in `left.update(right)` takes the value from `right` when the key
is there, else from `left`. -/
theorem pyLookup_pyUpdate (left right : Dict) (hnd : (dictKeys right).Nodup)
    (k : String) :
    pyLookup k (pyUpdate left right) =
      match pyLookup k right with
      | some v => some v
      | none => pyLookup k left := by
  induction right generalizing left with
  | nil => rfl
  | cons kv rest ih =>
    have hnd' : (dictKeys rest).Nodup := by
      rw [dictKeys] at hnd ⊢
      exact (List.nodup_cons.mp hnd).2
    have hknotin : kv.1 ∉ dictKeys rest := by
      rw [dictKeys] at hnd ⊢
      exact (List.nodup_cons.mp hnd).1
    rw [pyUpdate_cons, ih _ hnd']
    by_cases hk : kv.1 = k
    · have hnone : pyLookup k rest = none := by
        subst hk
        exact (pyLookup_eq_none_iff rest kv.1).mpr hknotin
      rw [hnone, pyLookup, if_pos hk, pyLookup_pySetKey, if_pos hk]
    · rw [pyLookup, if_neg hk, pyLookup_pySetKey, if_neg hk]


end MarketScan

namespace MarketScan

/-- C10: `merge_dicts` has `None` as a two-sided identity; merging two dicts
updates a copy of the left with the right, so on every key of the right
argument the right value wins; and for dicts with disjoint key sets (and
duplicate-free keys, as in every Python dict) the merge is commutative up to
Python dict equality (`dictEquiv`). -/
theorem merge_dicts_algebra :
    (∀ d : Option Dict, merge_dicts none d = d)
  ∧ (∀ d : Option Dict, merge_dicts d none = d)
  ∧ (∀ a b : Dict, merge_dicts (some a) (some b) = some (pyUpdate a b))
  ∧ (∀ (a b : Dict) (k : String), (dictKeys b).Nodup → k ∈ dictKeys b →
      pyLookup k (pyUpdate a b) = pyLookup k b)
  ∧ (∀ a b : Dict, (dictKeys a).Nodup → (dictKeys b).Nodup →
      (∀ k ∈ dictKeys a, k ∉ dictKeys b) →
      dictEquiv (pyUpdate a b) (pyUpdate b a)) := by
  refine ⟨fun d => rfl, fun d => by cases d <;> rfl, fun a b => rfl, ?_, ?_⟩
  · intro a b k hnd hk
    rw [pyLookup_pyUpdate a b hnd k]
    rcases hb : pyLookup k b with _ | v
    · exact absurd ((pyLookup_eq_none_iff b k).mp hb) (fun hc => hc hk)
    · rfl
  · intro a b hna hnb hdisj k
    rw [pyLookup_pyUpdate a b hnb k, pyLookup_pyUpdate b a hna k]
    rcases hb : pyLookup k b with _ | v <;> rcases ha : pyLookup k a with _ | w
    · rfl
    · rfl
    · rfl
    · exfalso
      have hka : k ∈ dictKeys a := by
        by_contra hc
        rw [(pyLookup_eq_none_iff a k).mpr hc] at ha
        exact Option.noConfusion ha
      have hkb : k ∈ dictKeys b := by
        by_contra hc
        rw [(pyLookup_eq_none_iff b k).mpr hc] at hb
        exact Option.noConfusion hb
      exact hdisj k hka hkb

/-! ## `prompt_manager.py` / `market_scan_workflow.py` — node enablement -/

/-- `PromptManager.is_node_enabled`: the configured nodes are an association
list node-id ↦ optional `enabled` flag (a node entry without the flag
defaults to enabled).  An unknown node id raises `KeyError`, modelled as the
`Except.error` branch. -/
def is_node_enabled (nodes : List (String × Option Bool)) (node_id : String) :
    Except String Bool :=
  match nodes.find? (fun kv => kv.1 == node_id) with
  | none => .error ("Node " ++ node_id ++ " not found")
  | some kv => .ok (kv.2.getD true)

/-- `MarketScanWorkflow._should_execute_node`: pass the enablement result
through, defaulting to `True` when the check raised. -/
def should_execute_node (enabledResult : Except String Bool) : Bool :=
  match enabledResult with
  | .ok b => b
  | .error _ => true

/-- C9: when the enablement lookup raises, `_should_execute_node` returns
`True` (so the node runs); in particular an unknown node id — on which
`is_node_enabled` raises `KeyError` — yields `True`; a successful lookup is
passed through unchanged. -/
theorem should_execute_defaults_enabled :
    (∀ e : String, should_execute_node (.error e) = true)
  ∧ (∀ (nodes : List (String × Option Bool)) (node_id : String),
      nodes.find? (fun kv => kv.1 == node_id) = none →
      should_execute_node (is_node_enabled nodes node_id) = true)
  ∧ (∀ b : Bool, should_execute_node (.ok b) = b) := by
  refine ⟨fun e => rfl, ?_, fun b => rfl⟩
  intro nodes node_id h
  unfold is_node_enabled
  rw [h]
  rfl

end MarketScan

namespace MarketScan

/-! ## `market_scan_workflow.py` — the seven analysis nodes

Each node function returns a partial state update.  The external call at the
heart of each node (prompt lookup plus Google-search or Gemini analysis,
everything inside the node's `try`) is a parameter of type
`Except String (Option String)`: `error e` models an exception with text `e`,
`ok none` a `None` result, `ok (some s)` a string result — which Python then
tests for truthiness (`if result:`), so an empty string also counts as
failure.  For the PDF nodes the call is a function of the document actually
analysed, which the node picks from the extracted chunk (falling back to the
full `pdf_path` when the chunk is falsy). -/

/-- Python truthiness of an optional string: `None` and `''` are falsy. -/
def truthyOpt : Option String → Bool
  | none => false
  | some s => !(s == "")

/-- The partial state update a node returns (only the keys the node writes):
its own output slot, appended errors, and its `processing_status` entries. -/
structure NodeDelta where
  output : Option String := none
  errors : List String := []
  status : List (String × String) := []
deriving DecidableEq, Repr

/-- Shared result handling of every node body: `completed` with the output
on a truthy result, `failed` with `failMsg` on a falsy one, `failed` with
`errPre + str(e)` on an exception. -/
def nodeOutcome (node_id errPre failMsg : String)
    (call : Except String (Option String)) : NodeDelta :=
  match call with
  | .error e => { errors := [errPre ++ e], status := [(node_id, "failed")] }
  | .ok r =>
    if truthyOpt r then { output := r, status := [(node_id, "completed")] }
    else { errors := [failMsg], status := [(node_id, "failed")] }

/-- Node 1, `_company_overview_node` (Google search). -/
def company_overview_node (enabled : Bool)
    (call : Except String (Option String)) : NodeDelta :=
  if !enabled then { status := [("company_overview", "skipped")] }
  else nodeOutcome "company_overview" "Company overview error: "
    "Failed to analyze company overview" call

/-- Node 2, `_industry_overview_node` (Google search). -/
def industry_overview_node (enabled : Bool)
    (call : Except String (Option String)) : NodeDelta :=
  if !enabled then { status := [("industry_overview", "skipped")] }
  else nodeOutcome "industry_overview" "Industry overview error: "
    "Failed to analyze industry overview" call

/-- Node 3, `_promoters_directors_node` (PDF analysis): skipped with an error
when the PDF was not processed; otherwise analyses the extracted directors
chunk, or the full PDF when the chunk is falsy. -/
def promoters_directors_node (enabled : Bool) (pdf_processed : Bool)
    (chunk pdf_path : Option String)
    (call : Option String → Except String (Option String)) : NodeDelta :=
  if !enabled then { status := [("promoters_directors", "skipped")] }
  else if !pdf_processed then
    { errors := ["PDF not processed, skipping directors analysis"],
      status := [("promoters_directors", "skipped")] }
  else
    nodeOutcome "promoters_directors" "Promoters/Directors error: "
      "Failed to analyze promoters and directors"
      (call (if truthyOpt chunk then chunk else pdf_path))

/-- Node 4, `_credit_rating_node` (PDF analysis). -/
def credit_rating_node (enabled : Bool) (pdf_processed : Bool)
    (chunk pdf_path : Option String)
    (call : Option String → Except String (Option String)) : NodeDelta :=
  if !enabled then { status := [("credit_rating", "skipped")] }
  else if !pdf_processed then
    { errors := ["PDF not processed, skipping credit rating analysis"],
      status := [("credit_rating", "skipped")] }
  else
    nodeOutcome "credit_rating" "Credit rating error: "
      "Failed to analyze credit rating"
      (call (if truthyOpt chunk then chunk else pdf_path))

/-- Node 5, `_financials_node` (PDF analysis). -/
def financials_node (enabled : Bool) (pdf_processed : Bool)
    (chunk pdf_path : Option String)
    (call : Option String → Except String (Option String)) : NodeDelta :=
  if !enabled then { status := [("financials", "skipped")] }
  else if !pdf_processed then
    { errors := ["PDF not processed, skipping financial analysis"],
      status := [("financials", "skipped")] }
  else
    nodeOutcome "financials" "Financial analysis error: "
      "Failed to analyze financials"
      (call (if truthyOpt chunk then chunk else pdf_path))

/-- Node 6, `_compliance_checks_node` (Google search). -/
def compliance_checks_node (enabled : Bool)
    (call : Except String (Option String)) : NodeDelta :=
  if !enabled then { status := [("compliance_checks", "skipped")] }
  else nodeOutcome "compliance_checks" "Compliance checks error: "
    "Failed to perform compliance checks" call

/-- Node 7, `_news_checks_node` (Google search). -/
def news_checks_node (enabled : Bool)
    (call : Except String (Option String)) : NodeDelta :=
  if !enabled then { status := [("news_checks", "skipped")] }
  else nodeOutcome "news_checks" "News analysis error: "
    "Failed to analyze news" call

/-- C6: every one of the seven analysis nodes, when the enablement check
reports it disabled, returns exactly the delta that marks its own status key
`skipped` — no error entry, no output slot written — whatever the state and
the external services would have done. -/
theorem disabled_nodes_skip :
    (∀ call, company_overview_node false call =
      { output := none, errors := [], status := [("company_overview", "skipped")] })
  ∧ (∀ call, industry_overview_node false call =
      { output := none, errors := [], status := [("industry_overview", "skipped")] })
  ∧ (∀ pdf_processed chunk pdf_path call,
      promoters_directors_node false pdf_processed chunk pdf_path call =
      { output := none, errors := [], status := [("promoters_directors", "skipped")] })
  ∧ (∀ pdf_processed chunk pdf_path call,
      credit_rating_node false pdf_processed chunk pdf_path call =
      { output := none, errors := [], status := [("credit_rating", "skipped")] })
  ∧ (∀ pdf_processed chunk pdf_path call,
      financials_node false pdf_processed chunk pdf_path call =
      { output := none, errors := [], status := [("financials", "skipped")] })
  ∧ (∀ call, compliance_checks_node false call =
      { output := none, errors := [], status := [("compliance_checks", "skipped")] })
  ∧ (∀ call, news_checks_node false call =
      { output := none, errors := [], status := [("news_checks", "skipped")] }) :=
  ⟨fun _ => rfl, fun _ => rfl, fun _ _ _ _ => rfl, fun _ _ _ _ => rfl,
   fun _ _ _ _ => rfl, fun _ => rfl, fun _ => rfl⟩

end MarketScan

namespace MarketScan

/-! ## `market_scan_workflow.py` — `_create_consolidated_markdown_report` -/

/-- The literal placeholder for a section with no data. -/
def placeholderText : String := "*No data available for this section.*"

/-- The block emitted for a section whose stored output is absent or empty. -/
def placeholderBlock (section_title : String) : String :=
  "## " ++ section_title ++ "\n\n*No data available for this section.*\n\n---\n\n"

/-- One section of the concatenated report: a truthy stored output is used
as-is when (after stripping) it already starts with the section header, else
the header is prepended; a missing or empty output becomes the placeholder
block.  Every populated block is terminated by the section separator. -/
def sectionBlock (section_title : String) (content : Option String) : String :=
  match content with
  | some c =>
    if c ≠ "" then
      (if startsWithCL ("## " ++ section_title).data (pyStrip c.data) then c
       else "## " ++ section_title ++ "\n\n" ++ c) ++ "\n\n---\n\n"
    else placeholderBlock section_title
  | none => placeholderBlock section_title

/-- The fixed report header (the generation date is a parameter). -/
def reportHeader (company_name date : String) : String :=
  "# CMML Market Scan Report: " ++ company_name ++
    "\n*Generated by Piramal Finance Corporate & Mid-Market Lending Team*\n*Report Date: "
    ++ date ++ "*\n\n---\n\n"

/-- The fixed report footer (the year is a parameter). -/
def reportFooter (year : String) : String :=
  "\n---\n**Disclaimer:** This report is generated for internal assessment purposes only. All information is based on publicly available data and should be verified independently.\n\n*© "
    ++ year ++ " Piramal Finance Limited. All rights reserved.*\n"

/-- `_create_consolidated_markdown_report`: fixed header, the seven sections
in fixed order with fixed titles, fixed footer.  `datetime.now()` is
abstracted into the `date`/`year` parameters. -/
def create_consolidated_markdown_report (company_name date year : String)
    (company_overview industry_overview promoters_directors credit_rating
      financials compliance_checks news_checks : Option String) : String :=
  reportHeader company_name date
    ++ sectionBlock "1. Company & Business Overview" company_overview
    ++ sectionBlock "2. Industry Overview" industry_overview
    ++ sectionBlock "3. Promoters and Board of Directors" promoters_directors
    ++ sectionBlock "4. Credit Rating History" credit_rating
    ++ sectionBlock "5. Financial Performance" financials
    ++ sectionBlock "6. Compliance & Due Diligence" compliance_checks
    ++ sectionBlock "7. News & Media Analysis" news_checks
    ++ reportFooter year

/-! ### String lemmas -/

theorem isPrefix_iff_startsWithCL : ∀ (p s : List Char),
    startsWithCL p s = true ↔ p <+: s
  | [], s => by
    simp [startsWithCL, List.nil_prefix]
  | a :: as, [] => by
    simp [startsWithCL, List.prefix_nil]
  | a :: as, b :: bs => by
    rw [startsWithCL, Bool.and_eq_true, beq_iff_eq,
      isPrefix_iff_startsWithCL as bs]
    constructor
    · rintro ⟨rfl, t, rfl⟩
      exact ⟨t, rfl⟩
    · rintro ⟨t, h⟩
      injection h with h1 h2
      exact ⟨h1, t, h2⟩

theorem containsSub_of_startsWith {n s : List Char}
    (h : startsWithCL n s = true) : containsSub n s = true := by
  cases s with
  | nil =>
    cases n with
    | nil => rfl
    | cons a as => simp [startsWithCL] at h
  | cons c rest => simp [containsSub, h]

theorem containsSub_of_isInfix {n h : List Char} (hinf : n <:+: h) :
    containsSub n h = true := by
  rcases hinf with ⟨s, t, rfl⟩
  induction s with
  | nil =>
    exact containsSub_of_startsWith
      ((isPrefix_iff_startsWithCL n (n ++ t)).mpr ⟨t, rfl⟩)
  | cons c s' ih =>
    show containsSub n (c :: (s' ++ n ++ t)) = true
    rw [containsSub, Bool.or_eq_true]
    exact Or.inr ih

theorem pyStrip_isInfix (l : List Char) : pyStrip l <:+: l := by
  have h2 : (l.dropWhile pyIsSpace).reverse.dropWhile pyIsSpace <:+
      (l.dropWhile pyIsSpace).reverse :=
    ⟨_, List.takeWhile_append_dropWhile _ _⟩
  have h3 : pyStrip l <+: l.dropWhile pyIsSpace := by
    rw [pyStrip]
    rcases h2 with ⟨u, hu⟩
    refine ⟨u.reverse, ?_⟩
    rw [← List.reverse_append, hu, List.reverse_reverse]
  rcases h3 with ⟨u, hu⟩
  refine ⟨l.takeWhile pyIsSpace, u, ?_⟩
  rw [List.append_assoc, hu, List.takeWhile_append_dropWhile]

end MarketScan

namespace MarketScan

/-- C8: for every `node_results`, the deterministic fallback report is the
fixed header, then exactly the seven section blocks in fixed order with the
fixed titles, then the fixed footer; the report begins with the header and
ends with the footer; every section block carries its own `## <title>`
header; and a section whose stored output is absent or empty is exactly the
placeholder block, which contains the literal text
`*No data available for this section.*`. -/
theorem consolidated_report_structure (company_name date year : String)
    (company_overview industry_overview promoters_directors credit_rating
      financials compliance_checks news_checks : Option String) :
    (create_consolidated_markdown_report company_name date year company_overview
        industry_overview promoters_directors credit_rating financials
        compliance_checks news_checks =
      reportHeader company_name date
        ++ sectionBlock "1. Company & Business Overview" company_overview
        ++ sectionBlock "2. Industry Overview" industry_overview
        ++ sectionBlock "3. Promoters and Board of Directors" promoters_directors
        ++ sectionBlock "4. Credit Rating History" credit_rating
        ++ sectionBlock "5. Financial Performance" financials
        ++ sectionBlock "6. Compliance & Due Diligence" compliance_checks
        ++ sectionBlock "7. News & Media Analysis" news_checks
        ++ reportFooter year)
  ∧ (reportHeader company_name date).data <+:
      (create_consolidated_markdown_report company_name date year company_overview
        industry_overview promoters_directors credit_rating financials
        compliance_checks news_checks).data
  ∧ (reportFooter year).data <:+
      (create_consolidated_markdown_report company_name date year company_overview
        industry_overview promoters_directors credit_rating financials
        compliance_checks news_checks).data
  ∧ (∀ (section_title : String) (content : Option String),
      ("## " ++ section_title).data <:+: (sectionBlock section_title content).data)
  ∧ (∀ (section_title : String) (content : Option String),
      content = none ∨ content = some "" →
      sectionBlock section_title content = placeholderBlock section_title)
  ∧ (∀ section_title : String,
      placeholderText.data <:+: (placeholderBlock section_title).data) := by
  have hplaceholder : ∀ t : String,
      (placeholderBlock t).data = ("## " ++ t).data ++
        "\n\n*No data available for this section.*\n\n---\n\n".data := by
    intro t
    simp [placeholderBlock, String.data_append, List.append_assoc]
  refine ⟨rfl, ?_, ?_, ?_, ?_, ?_⟩
  · have hdr : (create_consolidated_markdown_report company_name date year
        company_overview industry_overview promoters_directors credit_rating
        financials compliance_checks news_checks).data =
        (reportHeader company_name date).data ++
          (sectionBlock "1. Company & Business Overview" company_overview
            ++ sectionBlock "2. Industry Overview" industry_overview
            ++ sectionBlock "3. Promoters and Board of Directors" promoters_directors
            ++ sectionBlock "4. Credit Rating History" credit_rating
            ++ sectionBlock "5. Financial Performance" financials
            ++ sectionBlock "6. Compliance & Due Diligence" compliance_checks
            ++ sectionBlock "7. News & Media Analysis" news_checks
            ++ reportFooter year).data := by
      simp [create_consolidated_markdown_report, String.data_append,
        List.append_assoc]
    rw [hdr]
    exact List.prefix_append _ _
  · have hft : (create_consolidated_markdown_report company_name date year
        company_overview industry_overview promoters_directors credit_rating
        financials compliance_checks news_checks).data =
        (reportHeader company_name date
            ++ sectionBlock "1. Company & Business Overview" company_overview
            ++ sectionBlock "2. Industry Overview" industry_overview
            ++ sectionBlock "3. Promoters and Board of Directors" promoters_directors
            ++ sectionBlock "4. Credit Rating History" credit_rating
            ++ sectionBlock "5. Financial Performance" financials
            ++ sectionBlock "6. Compliance & Due Diligence" compliance_checks
            ++ sectionBlock "7. News & Media Analysis" news_checks).data ++
          (reportFooter year).data := by
      simp [create_consolidated_markdown_report, String.data_append,
        List.append_assoc]
    rw [hft]
    exact List.suffix_append _ _
  · intro t content
    cases content with
    | none =>
      refine List.IsPrefix.isInfix ?_
      rw [show sectionBlock t none = placeholderBlock t from rfl, hplaceholder t]
      exact List.prefix_append _ _
    | some c =>
      by_cases hc : c = ""
      · refine List.IsPrefix.isInfix ?_
        rw [sectionBlock, if_neg (not_not_intro hc), hplaceholder t]
        exact List.prefix_append _ _
      · rw [sectionBlock, if_pos hc]
        by_cases hsw : startsWithCL ("## " ++ t).data (pyStrip c.data)
        · rw [if_pos hsw]
          have hpre : ("## " ++ t).data <+: pyStrip c.data :=
            (isPrefix_iff_startsWithCL _ _).mp hsw
          have hinc : ("## " ++ t).data <:+: c.data :=
            hpre.isInfix.trans (pyStrip_isInfix c.data)
          have hext : c.data <+: (c ++ "\n\n---\n\n").data := by
            rw [String.data_append]
            exact List.prefix_append _ _
          exact hinc.trans hext.isInfix
        · rw [if_neg hsw]
          refine List.IsPrefix.isInfix ?_
          have hd : (("## " ++ t ++ "\n\n" ++ c) ++ "\n\n---\n\n").data =
              ("## " ++ t).data ++ ("\n\n" ++ c ++ "\n\n---\n\n").data := by
            simp [String.data_append, List.append_assoc]
          rw [hd]
          exact List.prefix_append _ _
  · intro t content h
    rcases h with rfl | rfl
    · rfl
    · rw [sectionBlock, if_neg (not_not_intro rfl)]
  · intro t
    refine ⟨("## " ++ t).data ++ "\n\n".data, "\n\n---\n\n".data, ?_⟩
    rw [hplaceholder t]
    simp only [String.data_append, List.append_assoc]
    congr 1

end MarketScan

namespace MarketScan

/-! ## `market_scan_workflow.py` — `_report_writer_node` and `run`

The writer's effectful steps are parameters: `promptCall` models
`prompt_manager.get_prompt('report_consolidator', ...)` (an exception there
is caught only by the node's outermost `except`, which emits the error
report); `llmCall` models the Gemini text call inside the inner `try` (an
exception or falsy result there falls back to the deterministic Markdown
concatenation, which is pure and cannot itself raise, so the final
basic-HTML fallback of the source is unreachable).  Report files written to
disk are not modelled.  The embedding tags each outcome with the variant of
report it produced. -/

/-- Which report variant `_report_writer_node` produced. -/
inductive ReportVariant where
  | errorReport
  | llmReport
  | markdownConcat
  | basicHtml
deriving DecidableEq, Repr

/-- The writer node's partial state update: the produced report (tagged with
its variant) and the appended errors. -/
structure WriterOutcome where
  variant : ReportVariant
  final_report : String
  errors : List String := []
deriving DecidableEq, Repr

/-- `_generate_error_report`: the fixed error-report HTML around the company
name and the `<li>`-wrapped error log. -/
def generate_error_report (company_name : String) (errors : List String) : String :=
  "\n<!DOCTYPE html>\n<html>\n<head>\n    <title>CMML Market Scan - Error Report</title>\n    <style>\n        body \x7b font-family: Arial, sans-serif; margin: 20px; \x7d\n        .error \x7b color: #e74c3c; \x7d\n    </style>\n</head>\n<body>\n    <h1>Market Scan Report - Processing Error</h1>\n    <p>Company: "
    ++ company_name
    ++ "</p>\n    <h2 class=\"error\">Errors Encountered:</h2>\n    <ul class=\"error\">\n        "
    ++ String.intercalate "\n" (errors.map fun e => "<li>" ++ e ++ "</li>")
    ++ "\n    </ul>\n    <p>Please check the input data and try again.</p>\n</body>\n</html>\n"

/-- `_report_writer_node`.  The insufficient-data check fires only when all
three foundational slots are falsy; then the prompt step (outer `try`), the
LLM call (inner `try`, Markdown fallback) and the truthiness check on the
LLM result decide the variant. -/
def report_writer_node (company_name date year : String)
    (company_overview industry_overview promoters_directors credit_rating
      financials compliance_checks news_checks : Option String)
    (errors : List String) (promptCall : Except String String)
    (llmCall : Except String (Option String)) : WriterOutcome :=
  if !truthyOpt company_overview && !truthyOpt industry_overview
      && !truthyOpt promoters_directors then
    { variant := .errorReport,
      final_report := generate_error_report company_name errors,
      errors := ["Insufficient data to generate comprehensive report"] }
  else
    match promptCall with
    | .error e =>
      { variant := .errorReport,
        final_report := generate_error_report company_name errors,
        errors := ["Report consolidation error: " ++ e] }
    | .ok _prompt =>
      match llmCall with
      | .error _e =>
        { variant := .markdownConcat,
          final_report := create_consolidated_markdown_report company_name date year
            company_overview industry_overview promoters_directors credit_rating
            financials compliance_checks news_checks }
      | .ok r =>
        if truthyOpt r then
          { variant := .llmReport, final_report := r.getD "" }
        else
          { variant := .markdownConcat,
            final_report := create_consolidated_markdown_report company_name date year
              company_overview industry_overview promoters_directors credit_rating
              financials compliance_checks news_checks }

end MarketScan

namespace MarketScan

/-- C1 (amended): the writer emits the error-report variant through its
insufficient-data check exactly when none of the three foundational slots
(company overview, industry overview, promoters/directors) is populated;
when at least one is populated and the prompt step does not raise, the
outcome is never the error-report variant (it is the LLM report or the
Markdown fallback). -/
theorem writer_error_gate_amended (company_name date year : String)
    (company_overview industry_overview promoters_directors credit_rating
      financials compliance_checks news_checks : Option String)
    (errors : List String) (promptCall : Except String String)
    (llmCall : Except String (Option String)) :
    (truthyOpt company_overview = false → truthyOpt industry_overview = false →
      truthyOpt promoters_directors = false →
      report_writer_node company_name date year company_overview industry_overview
          promoters_directors credit_rating financials compliance_checks news_checks
          errors promptCall llmCall =
        { variant := .errorReport,
          final_report := generate_error_report company_name errors,
          errors := ["Insufficient data to generate comprehensive report"] })
  ∧ ((truthyOpt company_overview = true ∨ truthyOpt industry_overview = true ∨
        truthyOpt promoters_directors = true) →
      ∀ prompt, promptCall = .ok prompt →
      (report_writer_node company_name date year company_overview industry_overview
          promoters_directors credit_rating financials compliance_checks news_checks
          errors promptCall llmCall).variant ≠ ReportVariant.errorReport) := by
  constructor
  · intro h1 h2 h3
    have hcond : (!truthyOpt company_overview && !truthyOpt industry_overview
        && !truthyOpt promoters_directors) = true := by
      rw [h1, h2, h3]
      rfl
    unfold report_writer_node
    rw [if_pos hcond]
  · intro hor prompt hp
    subst hp
    have hcond : (!truthyOpt company_overview && !truthyOpt industry_overview
        && !truthyOpt promoters_directors) = false := by
      rcases hor with h | h | h <;> rw [h] <;> simp
    unfold report_writer_node
    rw [if_neg (by rw [hcond]; exact Bool.false_ne_true)]
    cases llmCall with
    | error e =>
      show ReportVariant.markdownConcat ≠ ReportVariant.errorReport
      decide
    | ok r =>
      show (if truthyOpt r = true then
          ({ variant := .llmReport, final_report := r.getD "", errors := [] } :
            WriterOutcome)
        else
          { variant := .markdownConcat,
            final_report := create_consolidated_markdown_report company_name date year
              company_overview industry_overview promoters_directors credit_rating
              financials compliance_checks news_checks,
            errors := [] }).variant ≠ ReportVariant.errorReport
      by_cases ht : truthyOpt r = true
      · rw [if_pos ht]
        exact fun hco => ReportVariant.noConfusion hco
      · rw [if_neg ht]
        exact fun hco => ReportVariant.noConfusion hco

/-- Counterexample to C1 as stated: with exactly one of the three
foundational slots populated — fewer than three — the writer does not emit
the error-report variant; it proceeds to consolidation (here the Markdown
fallback, the LLM having returned `None`). -/
theorem writer_error_gate_cex :
    truthyOpt (some "overview text") = true
  ∧ truthyOpt (none : Option String) = false
  ∧ (report_writer_node "ACME Ltd" "01-Jan-2026" "2026" (some "overview text")
      none none none none none none [] (.ok "consolidator prompt")
      (.ok none)).variant = ReportVariant.markdownConcat
  ∧ ReportVariant.markdownConcat ≠ ReportVariant.errorReport := by
  refine ⟨rfl, rfl, rfl, by decide⟩

end MarketScan

namespace MarketScan

/-- The workflow state as it comes back from `self.workflow.invoke(...)`. -/
structure FinalState where
  company_name : String := ""
  pdf_path : Option String := none
  pdf_processed : Bool := false
  pdf_chunks : Option (List (String × Option String)) := none
  company_overview : Option String := none
  industry_overview : Option String := none
  promoters_directors : Option String := none
  credit_rating : Option String := none
  financials : Option String := none
  compliance_checks : Option String := none
  news_checks : Option String := none
  final_report : Option String := none
  errors : List String := []
  processing_status : Dict := []

/-- The dictionary `MarketScanWorkflow.run` returns to its caller.  In the
failure branch the source's dict carries only the first five keys; the seven
per-node output keys are absent, modelled here as `none`. -/
structure RunResult where
  success : Bool
  report : Option String
  company : String
  errors : List String
  processing_status : Dict
  company_overview : Option String := none
  industry_overview : Option String := none
  promoters_directors : Option String := none
  credit_rating : Option String := none
  financials : Option String := none
  compliance_checks : Option String := none
  news_checks : Option String := none

/-- `MarketScanWorkflow.run`: the whole body sits inside one
`try/except Exception`, so the graph invocation is a parameter
`invokeWorkflow`; its `error` constructor models any exception escaping the
graph, turned into the failure result instead of propagating. -/
def run (company_name : String) (pdf_path : Option String)
    (invokeWorkflow : Except String FinalState) : RunResult :=
  match invokeWorkflow with
  | .ok final_state =>
    { success := true
      report := final_state.final_report
      company := company_name
      errors := final_state.errors
      processing_status := final_state.processing_status
      company_overview := final_state.company_overview
      industry_overview := final_state.industry_overview
      promoters_directors := final_state.promoters_directors
      credit_rating := final_state.credit_rating
      financials := final_state.financials
      compliance_checks := final_state.compliance_checks
      news_checks := final_state.news_checks }
  | .error e =>
    { success := false
      report := none
      company := company_name
      errors := [e]
      processing_status := [] }

/-- C7: `run` never lets an exception cross its boundary — for every outcome
of the graph invocation (normal or raising) the caller receives a complete
result record: on success the `success` flag, the final report and the full
error log of the final state; on an exception `success = false`, no report
and the exception text as the error list.  `success` is `true` exactly when
the invocation did not raise. -/
theorem run_boundary_total (company_name : String) (pdf_path : Option String)
    (invokeWorkflow : Except String FinalState) :
    (∀ final_state, invokeWorkflow = .ok final_state →
      run company_name pdf_path invokeWorkflow =
        { success := true
          report := final_state.final_report
          company := company_name
          errors := final_state.errors
          processing_status := final_state.processing_status
          company_overview := final_state.company_overview
          industry_overview := final_state.industry_overview
          promoters_directors := final_state.promoters_directors
          credit_rating := final_state.credit_rating
          financials := final_state.financials
          compliance_checks := final_state.compliance_checks
          news_checks := final_state.news_checks })
  ∧ (∀ e, invokeWorkflow = .error e →
      run company_name pdf_path invokeWorkflow =
        { success := false
          report := none
          company := company_name
          errors := [e]
          processing_status := [] })
  ∧ ((run company_name pdf_path invokeWorkflow).success = true ↔
      ∃ final_state, invokeWorkflow = .ok final_state) := by
  refine ⟨?_, ?_, ?_⟩
  · rintro final_state rfl
    rfl
  · rintro e rfl
    rfl
  · cases invokeWorkflow with
    | ok s =>
      refine ⟨fun _ => ⟨s, rfl⟩, fun _ => rfl⟩
    | error e =>
      constructor
      · intro h
        exact absurd h (by simp [run])
      · rintro ⟨s, hs⟩
        exact Except.noConfusion hs

end MarketScan
